import Mathlib

/-!
Verification of the connection-oriented echo service in
`lec-homeworks/lec-10/server.c` and `lec-homeworks/lec-10/client.c`
(CMPUT-379 repository).

The C programs are shallowly embedded: every blocking system call whose
result the program branches on (recv, send, read, write, accept, select)
is driven by an explicit oracle event, and each loop of the source becomes
a Lean function folding over the list of oracle events.  Bytes are `Nat`s.
-/

/-- Result of one `send`/`write` call inside a flush loop.
`sOk m` is a successful transfer of `m` bytes, `sEintr` is a failure with
`errno == EINTR`, `sErr` is any other failure. -/
inductive SendRes : Type where
  | sOk (m : Nat)
  | sEintr
  | sErr
deriving DecidableEq

/-- How a flush loop ended: `flushed` (all bytes transferred), `failed`
(a non-EINTR write error occurred), `starved` (the oracle trace ended while
bytes were still pending, i.e. the loop is still blocked in `send`). -/
inductive SStat : Type where
  | flushed
  | failed
  | starved
deriving DecidableEq

/-- Bytes actually transferred by a flush loop, and its final status. -/
structure SRes : Type where
  written : List Nat
  status : SStat
deriving DecidableEq

/-- Embedding of the write-all loop shared (textually identically) by
`server.c:80-93` (`while (sent < n) { send(...) }`), `client.c:119-131`
(write to stdout) and `client.c:154-167` (send to server): repeatedly
issue a write for the pending suffix; `EINTR` retries, any other error
aborts, and a transfer of `m` bytes consumes the first `m` pending bytes. -/
def sendAll : List Nat → List SendRes → SRes
  | [], _ => ⟨[], .flushed⟩
  | _ :: _, [] => ⟨[], .starved⟩
  | b :: rem, .sEintr :: rs => sendAll (b :: rem) rs
  | _ :: _, .sErr :: _ => ⟨[], .failed⟩
  | b :: rem, .sOk m :: rs =>
    let r := sendAll ((b :: rem).drop m) rs
    ⟨(b :: rem).take m ++ r.written, r.status⟩

/-- Result of one `recv` on the server's connection (`server.c:66`):
`eof` is a zero-byte read (orderly close), `rEintr` retries, `rErr` is any
other failure, `data c ws` is a successful read of the non-empty chunk `c`
followed by the echo flush loop driven by the write-oracle `ws`. -/
inductive SrvEv : Type where
  | eof
  | rEintr
  | rErr
  | data (c : List Nat) (ws : List SendRes)
deriving DecidableEq

/-- Stderr messages of `client_thread` in `server.c`. -/
inductive SLog : Type where
  | lConnect
  | lDisconnect
  | lRecvPerror
  | lSendPerror
deriving DecidableEq

/-- How the `client_thread` echo loop ended: the three termination paths of
`server.c` (`n == 0` break, `recv` error break, `send` error
`pthread_exit`), or `running`/`stuck` when the oracle trace ends with the
thread still blocked in `recv`/`send`. -/
inductive SEnd : Type where
  | peerEof
  | recvErr
  | sendErr
  | running
  | stuck
deriving DecidableEq

/-- Observable outcome of a server session: bytes echoed back to the
connection, number of `close(fd)` calls, stderr log, end condition. -/
structure Sess : Type where
  out : List Nat
  closes : Nat
  log : List SLog
  fin : SEnd
deriving DecidableEq

/-- Embedding of the echo loop of `client_thread` (`server.c:62-98`) plus
the code after it: on `eof` break, then log disconnect and `close(fd)`;
on `recv` EINTR continue; on another `recv` error `perror` and break (then
disconnect log and close); on data, flush through `sendAll` — a flush
failure logs `perror("send")`, closes the fd and calls `pthread_exit`
without reaching the disconnect log. -/
def srvLoop : List SrvEv → Sess
  | [] => ⟨[], 0, [], .running⟩
  | .eof :: _ => ⟨[], 1, [.lDisconnect], .peerEof⟩
  | .rEintr :: r => srvLoop r
  | .rErr :: _ => ⟨[], 1, [.lRecvPerror, .lDisconnect], .recvErr⟩
  | .data c ws :: r =>
    match sendAll c ws with
    | ⟨w, .flushed⟩ =>
      let s := srvLoop r
      ⟨w ++ s.out, s.closes, s.log, s.fin⟩
    | ⟨w, .failed⟩ => ⟨w, 1, [.lSendPerror], .sendErr⟩
    | ⟨w, .starved⟩ => ⟨w, 0, [], .stuck⟩

/-- Embedding of the whole of `client_thread` (`server.c:50-99`): log the
connect notice, then run the echo loop. -/
def srvSession (evs : List SrvEv) : Sess :=
  let s := srvLoop evs
  { s with log := .lConnect :: s.log }

/-- Concatenation of the bytes `recv` returned to the session handler
along the trace (chunks up to the event that ends the read loop). -/
def readConcat : List SrvEv → List Nat
  | [] => []
  | .eof :: _ => []
  | .rEintr :: r => readConcat r
  | .rErr :: _ => []
  | .data c _ :: r => c ++ readConcat r

/-- True when a flush status is `flushed`. -/
def statusFlushed : SStat → Bool
  | .flushed => true
  | _ => false

/-- True when no unretryable I/O error occurs along the session trace:
every echo flush completes and no `recv` error is hit. -/
def noIOErr : List SrvEv → Bool
  | [] => true
  | .eof :: _ => true
  | .rEintr :: r => noIOErr r
  | .rErr :: _ => false
  | .data c ws :: r => statusFlushed (sendAll c ws).status && noIOErr r

/-- True on the end conditions where the session has actually terminated. -/
def terminalB : SEnd → Bool
  | .peerEof => true
  | .recvErr => true
  | .sendErr => true
  | .running => false
  | .stuck => false

lemma sendAll_flushed_eq (chunk : List Nat) (rs : List SendRes)
    (h : (sendAll chunk rs).status = .flushed) :
    (sendAll chunk rs).written = chunk := by
  induction rs generalizing chunk with
  | nil =>
    cases chunk with
    | nil => rfl
    | cons b rem => simp [sendAll] at h
  | cons r rs ih =>
    cases chunk with
    | nil => rfl
    | cons b rem =>
      cases r with
      | sEintr => exact ih _ h
      | sErr => simp [sendAll] at h
      | sOk m =>
        simp only [sendAll] at h ⊢
        rw [ih _ h, List.take_append_drop]

lemma sendAll_written_initial (chunk : List Nat) (rs : List SendRes) :
    ∃ t, (sendAll chunk rs).written ++ t = chunk := by
  induction rs generalizing chunk with
  | nil =>
    cases chunk with
    | nil => exact ⟨[], rfl⟩
    | cons b rem => exact ⟨b :: rem, rfl⟩
  | cons r rs ih =>
    cases chunk with
    | nil => exact ⟨[], rfl⟩
    | cons b rem =>
      cases r with
      | sEintr => exact ih _
      | sErr => exact ⟨b :: rem, rfl⟩
      | sOk m =>
        obtain ⟨t, ht⟩ := ih ((b :: rem).drop m)
        refine ⟨t, ?_⟩
        simp only [sendAll, List.append_assoc]
        rw [ht, List.take_append_drop]

lemma sendAll_failed_has_err (chunk : List Nat) (rs : List SendRes)
    (h : (sendAll chunk rs).status = .failed) :
    SendRes.sErr ∈ rs := by
  induction rs generalizing chunk with
  | nil =>
    cases chunk with
    | nil => simp [sendAll] at h
    | cons b rem => simp [sendAll] at h
  | cons r rs ih =>
    cases chunk with
    | nil => simp [sendAll] at h
    | cons b rem =>
      cases r with
      | sEintr => exact List.mem_cons_of_mem _ (ih _ h)
      | sErr => exact List.mem_cons_self _ _
      | sOk m =>
        simp only [sendAll] at h
        exact List.mem_cons_of_mem _ (ih _ h)

lemma sendAll_eintr (chunk : List Nat) (rs : List SendRes) :
    sendAll chunk (.sEintr :: rs) = sendAll chunk rs := by
  cases chunk with
  | nil => simp [sendAll]
  | cons b rem =>
    cases rs with
    | nil => rfl
    | cons r rs => rfl

lemma srvLoop_eintr (evs : List SrvEv) :
    srvLoop (.rEintr :: evs) = srvLoop evs := rfl

lemma srvLoop_out (evs : List SrvEv) (h : noIOErr evs = true) :
    (srvLoop evs).out = readConcat evs := by
  induction evs with
  | nil => rfl
  | cons e r ih =>
    cases e with
    | eof => rfl
    | rEintr => exact ih (by simpa [noIOErr] using h)
    | rErr => simp [noIOErr] at h
    | data c ws =>
      simp only [noIOErr, Bool.and_eq_true] at h
      have hst : (sendAll c ws).status = .flushed := by
        rcases hs : (sendAll c ws).status with _ | _ | _
        · rfl
        · rw [hs] at h; simp [statusFlushed] at h
        · rw [hs] at h; simp [statusFlushed] at h
      have hw := sendAll_flushed_eq c ws hst
      rcases hsr : sendAll c ws with ⟨w, st⟩
      rw [hsr] at hst hw
      simp only at hst hw
      subst hst
      simp only [srvLoop, hsr, readConcat]
      rw [hw, ih h.2]

lemma srvLoop_closes (evs : List SrvEv) :
    (srvLoop evs).closes = if terminalB (srvLoop evs).fin then 1 else 0 := by
  induction evs with
  | nil => rfl
  | cons e r ih =>
    cases e with
    | eof => rfl
    | rEintr => exact ih
    | rErr => rfl
    | data c ws =>
      rcases hsr : sendAll c ws with ⟨w, st⟩
      cases st <;> simp [srvLoop, hsr, terminalB] <;> exact ih

lemma srvLoop_disconnect (evs : List SrvEv) :
    SLog.lDisconnect ∈ (srvLoop evs).log ↔
      (srvLoop evs).fin = .peerEof ∨ (srvLoop evs).fin = .recvErr := by
  induction evs with
  | nil => simp [srvLoop]
  | cons e r ih =>
    cases e with
    | eof => simp [srvLoop]
    | rEintr => exact ih
    | rErr => simp [srvLoop]
    | data c ws =>
      rcases hsr : sendAll c ws with ⟨w, st⟩
      cases st <;> simp [srvLoop, hsr] <;> exact ih

/-- One iteration's oracle input for the server accept loop
(`server.c:176-207`).  `stopSet` means the `while (!g_stop)` check at the
loop head observed the flag set by `on_sigint`; `mallocFail` is a failed
`malloc` of the client context (before `accept` is called); `accEintr` is
`accept` failing with `EINTR`; `accErr` any other `accept` failure;
`conn ok sess` a successfully accepted connection whose `pthread_create`
succeeds (`ok = true`, session driven by trace `sess`) or fails
(`ok = false`, fd closed, context freed). -/
inductive AccEv : Type where
  | stopSet
  | mallocFail
  | accEintr
  | accErr
  | conn (ok : Bool) (sess : List SrvEv)
deriving DecidableEq

/-- How the accept loop ended. -/
inductive AEnd : Type where
  | running
  | stopExit
  | mallocExit
  | acceptErrExit
deriving DecidableEq

/-- Observable outcome of the accept loop: sessions spawned, connections
closed because `pthread_create` failed, and the end condition. -/
structure AccSt : Type where
  spawned : Nat
  closedNoSpawn : Nat
  fin : AEnd
deriving DecidableEq

/-- Embedding of the accept loop of `main` in `server.c:176-207`:
`g_stop` observed set exits the loop; a failed `malloc` does
`perror("malloc"); break;`; an `EINTR` from `accept` frees the context and
continues; any other `accept` failure breaks; on a successful accept,
`pthread_create` failure closes the fd and continues, success spawns a
detached session thread. -/
def accLoop : List AccEv → AccSt
  | [] => ⟨0, 0, .running⟩
  | .stopSet :: _ => ⟨0, 0, .stopExit⟩
  | .mallocFail :: _ => ⟨0, 0, .mallocExit⟩
  | .accEintr :: r => accLoop r
  | .accErr :: _ => ⟨0, 0, .acceptErrExit⟩
  | .conn ok _ :: r =>
    let s := accLoop r
    if ok then { s with spawned := s.spawned + 1 }
    else { s with closedNoSpawn := s.closedNoSpawn + 1 }

lemma accLoop_eintr (evs : List AccEv) :
    accLoop (.accEintr :: evs) = accLoop evs := rfl

/-- State of one spawned session thread in the interleaved whole-server
model: still running with pending recv-oracle events and bytes echoed so
far, finished naturally, or killed because the process exited while the
thread was still running. -/
inductive SessSt : Type where
  | run (pending : List SrvEv) (out : List Nat)
  | fin (out : List Nat) (e : SEnd)
  | killed (out : List Nat)
deriving DecidableEq

/-- Small-step version of the `client_thread` echo loop: process one
oracle event.  A `starved` flush leaves the thread blocked in `send`
(modelled as `run []`, no further progress). -/
def sessStep : SessSt → SessSt
  | .run [] out => .run [] out
  | .run (.eof :: _) out => .fin out .peerEof
  | .run (.rEintr :: r) out => .run r out
  | .run (.rErr :: _) out => .fin out .recvErr
  | .run (.data c ws :: r) out =>
    match sendAll c ws with
    | ⟨w, .flushed⟩ => .run r (out ++ w)
    | ⟨w, .failed⟩ => .fin (out ++ w) .sendErr
    | ⟨w, .starved⟩ => .run [] (out ++ w)
  | s => s

/-- True while a session thread is still running. -/
def isRunB : SessSt → Bool
  | .run _ _ => true
  | _ => false

/-- Returning from `main` terminates the process (C semantics), which
terminates every detached thread still running: running sessions become
`killed`, finished ones keep their outcome. -/
def killOne : SessSt → SessSt
  | .run _ out => .killed out
  | s => s

def killAll (l : List SessSt) : List SessSt := l.map killOne

/-- Whole-server state for the interleaved shutdown model: pending
accept-loop oracle, the spawned session threads, how many connections were
accepted and dispatched, and whether `main` has returned (process exited). -/
structure Sys : Type where
  accEvs : List AccEv
  sessions : List SessSt
  accepted : Nat
  mainDone : Bool
deriving DecidableEq

/-- A scheduler step: run one accept-loop iteration of `main`, or let
session thread number `i` process one event. -/
inductive SchedStep : Type where
  | mainS
  | sessS (i : Nat)
deriving DecidableEq

/-- Apply `f` to element `i` of a list, when present. -/
def modAt {α : Type} (f : α → α) : Nat → List α → List α
  | _, [] => []
  | 0, a :: l => f a :: l
  | n + 1, a :: l => a :: modAt f n l

/-- Interleaved semantics of `server.c`'s `main` against its detached
session threads.  When the accept loop exits (stop flag observed, `malloc`
failure, or `accept` error), `main` falls through to
`close(listen_fd); return EXIT_SUCCESS;` — the process exits and every
still-running detached thread is killed.  After `mainDone` nothing runs. -/
def sysStep (sys : Sys) : SchedStep → Sys
  | .mainS =>
    if sys.mainDone then sys else
    match sys.accEvs with
    | [] => sys
    | .stopSet :: _ =>
      { sys with mainDone := true, sessions := killAll sys.sessions }
    | .mallocFail :: _ =>
      { sys with mainDone := true, sessions := killAll sys.sessions }
    | .accEintr :: r => { sys with accEvs := r }
    | .accErr :: _ =>
      { sys with mainDone := true, sessions := killAll sys.sessions }
    | .conn ok sess :: r =>
      if ok then
        { sys with accEvs := r, sessions := sys.sessions ++ [.run sess []],
                   accepted := sys.accepted + 1 }
      else { sys with accEvs := r }
  | .sessS i =>
    if sys.mainDone then sys
    else { sys with sessions := modAt sessStep i sys.sessions }

def sysRun (sys : Sys) (steps : List SchedStep) : Sys :=
  steps.foldl sysStep sys

lemma killAll_not_run (l : List SessSt) :
    (killAll l).all (fun s => !isRunB s) = true := by
  induction l with
  | nil => rfl
  | cons a l ih =>
    cases a <;> simpa [killAll, killOne, isRunB] using ih

lemma sysStep_done (sys : Sys) (st : SchedStep) (h : sys.mainDone = true) :
    sysStep sys st = sys := by
  cases st <;> simp [sysStep, h]

lemma sysRun_done (sys : Sys) (steps : List SchedStep)
    (h : sys.mainDone = true) :
    sysRun sys steps = sys := by
  induction steps with
  | nil => rfl
  | cons st steps ih =>
    simp only [sysRun, List.foldl_cons]
    rw [sysStep_done sys st h]
    exact ih

/-- Result of one `recv` on the client's socket (`client.c:103`). -/
inductive RemRes : Type where
  | rEof
  | rEintr
  | rErr
  | rData (c : List Nat) (ws : List SendRes)
deriving DecidableEq

/-- Result of one `read` on the client's stdin (`client.c:138`). -/
inductive LocRes : Type where
  | lEof
  | lEintr
  | lErr
  | lData (c : List Nat) (ws : List SendRes)
deriving DecidableEq

/-- Stderr messages of the client (`client.c`). -/
inductive CLog : Type where
  | lSrvClosed
  | lSelPerror
  | lRecvPerror
  | lWritePerror
  | lReadPerror
  | lSendPerror
deriving DecidableEq

/-- One iteration's oracle input for the client event loop
(`client.c:78-170`): `select` interrupted (`EINTR`, retried), `select`
failing otherwise (break), or a readiness report `iter rem loc` where
`rem`/`loc` are present exactly when `FD_ISSET` holds for the socket /
stdin and carry the result of the subsequent `recv`/`read`.  Since stdin
is put in the fd set only while `stdin_open`, a `loc` result is consumed
only in that case. -/
inductive ClEvent : Type where
  | selEintr
  | selErr
  | iter (rem : Option RemRes) (loc : Option LocRes)
deriving DecidableEq

/-- Observable state of the client loop: the `stdin_open` flag, number of
`shutdown(fd, SHUT_WR)` calls, number of `read(STDIN_FILENO, ...)` and
`recv(fd, ...)` calls, bytes sent to the server, bytes written to stdout,
stderr log, whether the loop has exited (`done:` label reached), and
whether it is blocked forever in an inner flush loop (`stuck`). -/
structure ClSt : Type where
  stdinOpen : Bool
  shutdowns : Nat
  localReads : Nat
  remoteReads : Nat
  sentB : List Nat
  outB : List Nat
  log : List CLog
  done : Bool
  stuck : Bool
deriving DecidableEq

/-- Client state on entering the loop (`client.c:74-78`). -/
def initClSt : ClSt :=
  ⟨true, 0, 0, 0, [], [], [], false, false⟩

/-- The socket-readable arm of the client loop (`client.c:101-133`).
Returns the new state and whether control falls through to the stdin arm
(false when the code does `continue`, `break` or `goto done`). -/
def remotePart (s : ClSt) : RemRes → ClSt × Bool
  | .rEof =>
    ({ s with remoteReads := s.remoteReads + 1,
              log := s.log ++ [.lSrvClosed], done := true }, false)
  | .rEintr => ({ s with remoteReads := s.remoteReads + 1 }, false)
  | .rErr =>
    ({ s with remoteReads := s.remoteReads + 1,
              log := s.log ++ [.lRecvPerror], done := true }, false)
  | .rData c ws =>
    match sendAll c ws with
    | ⟨w, .flushed⟩ =>
      ({ s with remoteReads := s.remoteReads + 1,
                outB := s.outB ++ w }, true)
    | ⟨w, .failed⟩ =>
      ({ s with remoteReads := s.remoteReads + 1, outB := s.outB ++ w,
                log := s.log ++ [.lWritePerror], done := true }, false)
    | ⟨w, .starved⟩ =>
      ({ s with remoteReads := s.remoteReads + 1, outB := s.outB ++ w,
                stuck := true }, false)

/-- The stdin-readable arm of the client loop (`client.c:136-169`), only
entered while `stdin_open`: zero-byte read half-closes the socket
(`shutdown(fd, SHUT_WR)`) and clears `stdin_open`; EINTR retries; another
read error breaks; data is forwarded to the socket through the flush loop. -/
def localPart (s : ClSt) : LocRes → ClSt
  | .lEof =>
    { s with localReads := s.localReads + 1,
             shutdowns := s.shutdowns + 1, stdinOpen := false }
  | .lEintr => { s with localReads := s.localReads + 1 }
  | .lErr =>
    { s with localReads := s.localReads + 1,
             log := s.log ++ [.lReadPerror], done := true }
  | .lData c ws =>
    match sendAll c ws with
    | ⟨w, .flushed⟩ =>
      { s with localReads := s.localReads + 1, sentB := s.sentB ++ w }
    | ⟨w, .failed⟩ =>
      { s with localReads := s.localReads + 1, sentB := s.sentB ++ w,
               log := s.log ++ [.lSendPerror], done := true }
    | ⟨w, .starved⟩ =>
      { s with localReads := s.localReads + 1, sentB := s.sentB ++ w,
               stuck := true }

/-- One iteration of the client event loop (`client.c:78-170`).  Once the
loop has exited or is stuck in a flush, nothing further happens. -/
def clientStep (s : ClSt) (e : ClEvent) : ClSt :=
  if s.done || s.stuck then s else
  match e with
  | .selEintr => s
  | .selErr => { s with log := s.log ++ [.lSelPerror], done := true }
  | .iter rem loc =>
    let p := match rem with
      | none => (s, true)
      | some r => remotePart s r
    match loc with
    | some l => if p.2 && p.1.stdinOpen then localPart p.1 l else p.1
    | none => p.1

/-- The client event loop over a whole oracle trace. -/
def clientRun (s : ClSt) (evs : List ClEvent) : ClSt :=
  evs.foldl clientStep s

lemma clientRun_append (s : ClSt) (a b : List ClEvent) :
    clientRun s (a ++ b) = clientRun (clientRun s a) b := by
  simp [clientRun, List.foldl_append]

lemma remotePart_stdinOpen (s : ClSt) (r : RemRes) :
    (remotePart s r).1.stdinOpen = s.stdinOpen := by
  cases r with
  | rEof => rfl
  | rEintr => rfl
  | rErr => rfl
  | rData c ws =>
    rcases hsr : sendAll c ws with ⟨w, st⟩
    cases st <;> simp [remotePart, hsr]

lemma remotePart_shutdowns (s : ClSt) (r : RemRes) :
    (remotePart s r).1.shutdowns = s.shutdowns := by
  cases r with
  | rEof => rfl
  | rEintr => rfl
  | rErr => rfl
  | rData c ws =>
    rcases hsr : sendAll c ws with ⟨w, st⟩
    cases st <;> simp [remotePart, hsr]

lemma remotePart_localReads (s : ClSt) (r : RemRes) :
    (remotePart s r).1.localReads = s.localReads := by
  cases r with
  | rEof => rfl
  | rEintr => rfl
  | rErr => rfl
  | rData c ws =>
    rcases hsr : sendAll c ws with ⟨w, st⟩
    cases st <;> simp [remotePart, hsr]

lemma remotePart_remoteReads (s : ClSt) (r : RemRes) :
    (remotePart s r).1.remoteReads = s.remoteReads + 1 := by
  cases r with
  | rEof => rfl
  | rEintr => rfl
  | rErr => rfl
  | rData c ws =>
    rcases hsr : sendAll c ws with ⟨w, st⟩
    cases st <;> simp [remotePart, hsr]

lemma localPart_remoteReads (s : ClSt) (l : LocRes) :
    (localPart s l).remoteReads = s.remoteReads := by
  cases l with
  | lEof => rfl
  | lEintr => rfl
  | lErr => rfl
  | lData c ws =>
    rcases hsr : sendAll c ws with ⟨w, st⟩
    cases st <;> simp [localPart, hsr]

lemma localPart_inv (s : ClSt) (l : LocRes) (hopen : s.stdinOpen = true)
    (h0 : s.shutdowns = 0) :
    (localPart s l).shutdowns = if (localPart s l).stdinOpen then 0 else 1 := by
  cases l with
  | lEof => simp [localPart, h0]
  | lEintr => simp [localPart, h0, hopen]
  | lErr => simp [localPart, h0, hopen]
  | lData c ws =>
    rcases hsr : sendAll c ws with ⟨w, st⟩
    cases st <;> simp [localPart, hsr, h0, hopen]

lemma clientStep_shutdown_inv (s : ClSt) (e : ClEvent)
    (h : s.shutdowns = if s.stdinOpen then 0 else 1) :
    (clientStep s e).shutdowns
      = if (clientStep s e).stdinOpen then 0 else 1 := by
  simp only [clientStep]
  cases hds : s.done || s.stuck with
  | true => simpa [hds] using h
  | false =>
    simp only [hds, Bool.false_eq_true, if_false]
    cases e with
    | selEintr => exact h
    | selErr => exact h
    | iter rem loc =>
      have hp : ∀ p : ClSt × Bool,
          p.1.shutdowns = (if p.1.stdinOpen then 0 else 1) →
          (match loc with
            | some l => if p.2 && p.1.stdinOpen then localPart p.1 l else p.1
            | none => p.1).shutdowns
            = if (match loc with
                  | some l => if p.2 && p.1.stdinOpen then localPart p.1 l
                              else p.1
                  | none => p.1).stdinOpen then 0 else 1 := by
        intro p hp1
        cases loc with
        | none => exact hp1
        | some l =>
          cases hco : p.2 && p.1.stdinOpen with
          | false => simpa [hco] using hp1
          | true =>
            have hso : p.1.stdinOpen = true := by
              have h' := hco
              simp only [Bool.and_eq_true] at h'
              exact h'.2
            have h0 : p.1.shutdowns = 0 := by rw [hp1, hso]; rfl
            simpa [hco] using localPart_inv p.1 l hso h0
      cases rem with
      | none => exact hp (s, true) h
      | some r =>
        refine hp (remotePart s r) ?_
        rw [remotePart_shutdowns, remotePart_stdinOpen]
        exact h

lemma clientStep_stdin_closed (s : ClSt) (e : ClEvent)
    (h : s.stdinOpen = false) :
    (clientStep s e).stdinOpen = false
      ∧ (clientStep s e).localReads = s.localReads := by
  simp only [clientStep]
  cases hds : s.done || s.stuck with
  | true => simp [hds, h]
  | false =>
    simp only [hds, Bool.false_eq_true, if_false]
    cases e with
    | selEintr => exact ⟨h, rfl⟩
    | selErr => exact ⟨h, rfl⟩
    | iter rem loc =>
      have hp : ∀ p : ClSt × Bool,
          p.1.stdinOpen = false → p.1.localReads = s.localReads →
          (match loc with
            | some l => if p.2 && p.1.stdinOpen then localPart p.1 l else p.1
            | none => p.1).stdinOpen = false
          ∧ (match loc with
              | some l => if p.2 && p.1.stdinOpen then localPart p.1 l
                          else p.1
              | none => p.1).localReads = s.localReads := by
        intro p h1 h2
        cases loc with
        | none => exact ⟨h1, h2⟩
        | some l => simp [h1, h2]
      cases rem with
      | none => exact hp (s, true) h rfl
      | some r =>
        exact hp (remotePart s r)
          (by rw [remotePart_stdinOpen]; exact h)
          (remotePart_localReads s r)

lemma clientStep_remote_reads (s : ClSt) (r : RemRes) (loc : Option LocRes)
    (hd : s.done = false) (hs : s.stuck = false) :
    (clientStep s (.iter (some r) loc)).remoteReads = s.remoteReads + 1 := by
  simp only [clientStep, hd, hs, Bool.or_self, Bool.false_eq_true, if_false]
  cases loc with
  | none => exact remotePart_remoteReads s r
  | some l =>
    cases hco : (remotePart s r).2 && (remotePart s r).1.stdinOpen with
    | false => simpa [hco] using remotePart_remoteReads s r
    | true =>
      simp only [hco, if_true]
      rw [localPart_remoteReads, remotePart_remoteReads]

lemma clientStep_remote_eof (s : ClSt)
    (hd : s.done = false) (hs : s.stuck = false) :
    (clientStep s (.iter (some .rEof) none)).done = true := by
  simp [clientStep, hd, hs, remotePart]

lemma clientRun_cons (s : ClSt) (e : ClEvent) (evs : List ClEvent) :
    clientRun s (e :: evs) = clientRun (clientStep s e) evs := rfl

lemma clientRun_shutdown_inv (evs : List ClEvent) (s : ClSt)
    (h : s.shutdowns = if s.stdinOpen then 0 else 1) :
    (clientRun s evs).shutdowns
      = if (clientRun s evs).stdinOpen then 0 else 1 := by
  induction evs generalizing s with
  | nil => exact h
  | cons e evs ih =>
    rw [clientRun_cons]
    exact ih _ (clientStep_shutdown_inv s e h)

lemma clientRun_stdin_closed (evs : List ClEvent) (s : ClSt)
    (h : s.stdinOpen = false) :
    (clientRun s evs).stdinOpen = false
      ∧ (clientRun s evs).localReads = s.localReads := by
  induction evs generalizing s with
  | nil => exact ⟨h, rfl⟩
  | cons e evs ih =>
    rw [clientRun_cons]
    obtain ⟨h1, h2⟩ := clientStep_stdin_closed s e h
    obtain ⟨h3, h4⟩ := ih _ h1
    exact ⟨h3, h2 ▸ h4⟩

/-- Uppercase transform on one byte: each alphabetic (lowercase ASCII)
byte is mapped to its uppercase counterpart, anything else unchanged. -/
def upperByte (b : Nat) : Nat :=
  if 97 ≤ b ∧ b ≤ 122 then b - 32 else b

/-- Bounded line buffer size used by the session handlers (4096 bytes). -/
def BUFSZ : Nat := 4096

/-- Modelled from the spec: the line-oriented session-handler variant
(uppercase line echo) described in spec sections 4.3 and 8 has no source
file in the repository, so it is modelled from the spec's words:
"accumulates bytes until a newline or buffer-full condition, terminates
the accumulated line, then echoes the transformed line; a partial final
line with no trailing newline (due to peer EOF) is still echoed once",
with the transform "uppercase each alphabetic byte" and the response of a
complete line being "uppercase(L) followed by the same line terminator". -/
def lineEchoAux (acc : List Nat) : List Nat → List Nat
  | [] => if acc.isEmpty then [] else acc.map upperByte
  | b :: rest =>
    if b = 10 then acc.map upperByte ++ 10 :: lineEchoAux [] rest
    else if acc.length + 1 = BUFSZ then
      (acc ++ [b]).map upperByte ++ lineEchoAux [] rest
    else lineEchoAux (acc ++ [b]) rest

/-- Modelled from the spec: the whole response of the line-echo session to
an input byte stream, starting from an empty accumulator. -/
def lineEcho (input : List Nat) : List Nat := lineEchoAux [] input

lemma lineEchoAux_line (L : List Nat) (acc rest : List Nat)
    (hnl : 10 ∉ L) (hlen : acc.length + L.length < BUFSZ) :
    lineEchoAux acc (L ++ 10 :: rest)
      = (acc ++ L).map upperByte ++ 10 :: lineEchoAux [] rest := by
  induction L generalizing acc with
  | nil => simp [lineEchoAux]
  | cons b L ih =>
    have hb : b ≠ 10 := fun h => hnl (h ▸ List.mem_cons_self b L)
    have hbuf : acc.length + 1 ≠ BUFSZ := by
      simp only [List.length_cons] at hlen
      omega
    have hlen' : (acc ++ [b]).length + L.length < BUFSZ := by
      simp only [List.length_append, List.length_cons, List.length_nil]
      simp only [List.length_cons] at hlen
      omega
    have hnl' : 10 ∉ L := fun h => hnl (List.mem_cons_of_mem b h)
    simp only [List.cons_append, lineEchoAux]
    rw [if_neg hb, if_neg hbuf]
    have hgoal := ih (acc ++ [b]) hnl' hlen'
    simp only [List.append_eq] at hgoal ⊢
    rw [hgoal]
    simp [List.append_assoc]

lemma lineEchoAux_partial (L : List Nat) (acc : List Nat)
    (hnl : 10 ∉ L) (hlen : acc.length + L.length < BUFSZ) :
    lineEchoAux acc L
      = if (acc ++ L).isEmpty then [] else (acc ++ L).map upperByte := by
  induction L generalizing acc with
  | nil => simp [lineEchoAux]
  | cons b L ih =>
    have hb : b ≠ 10 := fun h => hnl (h ▸ List.mem_cons_self b L)
    have hbuf : acc.length + 1 ≠ BUFSZ := by
      simp only [List.length_cons] at hlen
      omega
    have hlen' : (acc ++ [b]).length + L.length < BUFSZ := by
      simp only [List.length_append, List.length_cons, List.length_nil]
      simp only [List.length_cons] at hlen
      omega
    have hnl' : 10 ∉ L := fun h => hnl (List.mem_cons_of_mem b h)
    simp only [lineEchoAux]
    rw [if_neg hb, if_neg hbuf, ih (acc ++ [b]) hnl' hlen']
    simp [List.append_assoc]

/-- Outcome of a run of the client's `main` (`client.c:53-175`):
usage error (`argc != 3`), failed connect, or the event loop run on a
successfully established connection. -/
inductive CRun : Type where
  | usageErr
  | connectErr
  | conn (s : ClSt)
deriving DecidableEq

/-- Embedding of `main` in `client.c`: argument check, `connect_to`,
then the event loop. -/
def clientMain (argc : Nat) (connectOk : Bool) (evs : List ClEvent) : CRun :=
  if argc ≠ 3 then .usageErr
  else if connectOk = false then .connectErr
  else .conn (clientRun initClSt evs)

/-- The process exit status of a client run: `EXIT_FAILURE` on usage or
connect error, `EXIT_SUCCESS` once the loop reaches the `done:` label
(`close(fd); return EXIT_SUCCESS;`), and none while the loop has not
terminated. -/
def clientExit : CRun → Option Nat
  | .usageErr => some 1
  | .connectErr => some 1
  | .conn s => if s.done then some 0 else none

/-- Whether `close(fd)` at the `done:` label has run. -/
def clientFdClosed : CRun → Bool
  | .conn s => s.done
  | _ => false

/-- C1: for every sequence of byte chunks a client sends to the raw-echo
server's session handler, assuming no I/O error occurs, the concatenation
of the bytes the handler writes back equals the concatenation of the bytes
it read, in the same order (chunk boundaries may differ). -/
theorem raw_echo_identity (evs : List SrvEv) (h : noIOErr evs = true) :
    (srvSession evs).out = readConcat evs := by
  simpa [srvSession] using srvLoop_out evs h

theorem raw_echo_identity_witness :
    (srvSession [.data [104, 105] [.sOk 1, .sOk 1], .eof]).out
      = readConcat [.data [104, 105] [.sOk 1, .sOk 1], .eof] :=
  raw_echo_identity [.data [104, 105] [.sOk 1, .sOk 1], .eof] (by decide)

/-- C2: once a read from local input returns zero bytes, the client
performs the write-half shutdown exactly once (the shutdown count is one
exactly when `stdin_open` has been cleared), never polls or reads local
input again (on any extension of the trace `stdin_open` stays cleared and
the stdin read count is frozen), and keeps polling and reading the remote
side until it closes (every socket-ready event still performs a `recv`,
and a remote EOF still terminates the loop); the open-to-closed transition
never reverses. -/
theorem client_halfclose_props (evs evs' : List ClEvent) :
    ((clientRun initClSt evs).shutdowns
        = if (clientRun initClSt evs).stdinOpen then 0 else 1)
    ∧ ((clientRun initClSt evs).stdinOpen = false →
        (clientRun initClSt (evs ++ evs')).stdinOpen = false
        ∧ (clientRun initClSt (evs ++ evs')).localReads
            = (clientRun initClSt evs).localReads)
    ∧ ((clientRun initClSt evs).done = false →
        (clientRun initClSt evs).stuck = false →
        (∀ (r : RemRes) (loc : Option LocRes),
          (clientStep (clientRun initClSt evs) (.iter (some r) loc)).remoteReads
            = (clientRun initClSt evs).remoteReads + 1)
        ∧ (clientStep (clientRun initClSt evs)
            (.iter (some .rEof) none)).done = true) := by
  refine ⟨?_, ?_, ?_⟩
  · exact clientRun_shutdown_inv evs initClSt rfl
  · intro h
    rw [clientRun_append]
    exact clientRun_stdin_closed evs' _ h
  · intro hd hs
    exact ⟨fun r loc => clientStep_remote_reads _ r loc hd hs,
           clientStep_remote_eof _ hd hs⟩

theorem client_halfclose_props_witness :
    ((clientRun initClSt
        ([ClEvent.iter none (some .lEof)] ++ [ClEvent.iter none (some .lEof)])).stdinOpen
          = false
      ∧ (clientRun initClSt
          ([ClEvent.iter none (some .lEof)] ++ [ClEvent.iter none (some .lEof)])).localReads
          = (clientRun initClSt [ClEvent.iter none (some .lEof)]).localReads)
    ∧ (clientStep (clientRun initClSt [ClEvent.iter none (some .lEof)])
        (.iter (some .rEof) none)).done = true :=
  ⟨(client_halfclose_props [ClEvent.iter none (some .lEof)]
      [ClEvent.iter none (some .lEof)]).2.1 (by decide),
   ((client_halfclose_props [ClEvent.iter none (some .lEof)]
      [ClEvent.iter none (some .lEof)]).2.2 (by decide) (by decide)).2⟩

/-- C3 counterexample: a concrete run refuting the claim that every
accepted session runs to natural completion and delivers its final echo
after a shutdown request.  One connection is accepted and its session
spawned; before the session thread gets to run, the accept loop observes
the stop flag, `main` returns, the process exits, and the detached session
thread is killed with no byte echoed — even though, run to completion, it
would have delivered `[104, 105]` (last conjunct). -/
theorem shutdown_kills_inflight_cex :
    (sysRun ⟨[.conn true [.data [104, 105] [.sOk 2], .eof], .stopSet], [], 0, false⟩
        [.mainS, .mainS]).accepted = 1
    ∧ (sysRun ⟨[.conn true [.data [104, 105] [.sOk 2], .eof], .stopSet], [], 0, false⟩
        [.mainS, .mainS]).sessions = [.killed []]
    ∧ (sysRun ⟨[.conn true [.data [104, 105] [.sOk 2], .eof], .stopSet], [], 0, false⟩
        [.mainS, .mainS]).mainDone = true
    ∧ sessStep (sessStep (SessSt.run [.data [104, 105] [.sOk 2], .eof] []))
        = SessSt.fin [104, 105] .peerEof := by
  decide

/-- C3 (amended): after the accept loop observes the shutdown flag it
accepts no new connections and `main` returns, which exits the process:
any in-flight session is forcibly terminated (killed) rather than run to
completion, and afterwards nothing accepts or runs. -/
theorem shutdown_amended (sys : Sys) (r : List AccEv)
    (steps : List SchedStep) :
    (sys.mainDone = false → sys.accEvs = .stopSet :: r →
      (sysStep sys .mainS).mainDone = true
      ∧ (sysStep sys .mainS).accepted = sys.accepted
      ∧ ((sysStep sys .mainS).sessions.all fun s => !isRunB s) = true)
    ∧ (sys.mainDone = true → sysRun sys steps = sys) := by
  constructor
  · intro hd he
    refine ⟨?_, ?_, ?_⟩ <;>
      simp [sysStep, hd, he, killAll_not_run]
  · intro hd
    exact sysRun_done sys steps hd

theorem shutdown_amended_witness :
    ((sysStep ⟨[AccEv.stopSet], [SessSt.run [SrvEv.eof] []], 0, false⟩
        .mainS).mainDone = true
      ∧ (sysStep ⟨[AccEv.stopSet], [SessSt.run [SrvEv.eof] []], 0, false⟩
          .mainS).accepted = 0
      ∧ ((sysStep ⟨[AccEv.stopSet], [SessSt.run [SrvEv.eof] []], 0, false⟩
          .mainS).sessions.all fun s => !isRunB s) = true)
    ∧ sysRun ⟨[], [], 1, true⟩ [SchedStep.mainS] = ⟨[], [], 1, true⟩ :=
  ⟨(shutdown_amended ⟨[AccEv.stopSet], [SessSt.run [SrvEv.eof] []], 0, false⟩
      [] []).1 rfl rfl,
   (shutdown_amended ⟨[], [], 1, true⟩ [] [SchedStep.mainS]).2 rfl⟩

/-- C4 counterexample: a failed `malloc` of the per-connection context —
a resource-exhaustion failure while creating the execution context — does
`perror("malloc"); break;` and terminates the accept loop: the dispatcher
ends (`fin = mallocExit`) and the connection waiting next in the trace is
never accepted (`spawned = 0`), refuting "the loop continues accepting
further connections; no single spawn failure terminates the Dispatcher". -/
theorem accept_loop_malloc_break_cex :
    (accLoop [.mallocFail, .conn true []]).fin = .mallocExit
    ∧ (accLoop [.mallocFail, .conn true []]).spawned = 0 := by
  decide

/-- C4 (amended): if `pthread_create` fails, the accepted connection is
closed and the loop continues accepting; but if the `malloc` of the
context fails (before `accept`, so no connection exists yet), the accept
loop breaks and the dispatcher terminates. -/
theorem spawn_failure_amended (evs : List AccEv) (sess : List SrvEv) :
    accLoop (.conn false sess :: evs)
        = { accLoop evs with
            closedNoSpawn := (accLoop evs).closedNoSpawn + 1 }
    ∧ accLoop (.mallocFail :: evs) = ⟨0, 0, .mallocExit⟩ :=
  ⟨rfl, rfl⟩

/-- C5: on every control path by which the session handler terminates —
orderly peer EOF, unretryable read error, or unretryable write error —
it closes its connection's descriptor exactly once (and never closes it
while still running). -/
theorem session_closes_once (evs : List SrvEv) :
    (srvSession evs).closes
      = if terminalB (srvSession evs).fin then 1 else 0 := by
  simpa [srvSession] using srvLoop_closes evs

/-- C6: whenever a read returns N > 0 bytes, the write-all loop (shared by
the server echo, the client forward-to-server and the client
forward-to-stdout paths) transfers exactly those N bytes when it completes
(tolerating short writes), never writes bytes beyond those read (what it
wrote is always an initial segment of the chunk), and ends early only on a
write error. -/
theorem write_all_exact (chunk : List Nat) (rs : List SendRes) :
    ((sendAll chunk rs).status = .flushed →
        (sendAll chunk rs).written = chunk)
    ∧ (∃ t, (sendAll chunk rs).written ++ t = chunk)
    ∧ ((sendAll chunk rs).status = .failed → SendRes.sErr ∈ rs) :=
  ⟨sendAll_flushed_eq chunk rs, sendAll_written_initial chunk rs,
   sendAll_failed_has_err chunk rs⟩

theorem write_all_exact_witness :
    (sendAll [1, 2, 3] [.sOk 1, .sOk 2]).written = [1, 2, 3]
    ∧ SendRes.sErr ∈ [SendRes.sOk 1, SendRes.sErr] :=
  ⟨(write_all_exact [1, 2, 3] [.sOk 1, .sOk 2]).1 (by decide),
   (write_all_exact [1, 2] [.sOk 1, .sErr]).2.2 (by decide)⟩

/-- C7 (modelled from the spec, the line-echo source file being absent
from the repository): for every line L with no embedded newline (and
fitting the 4096-byte line buffer), the line-echo response to `L ++ "\n"`
is `uppercase(L)` followed by the same line terminator, and a partial
final line with no trailing newline at peer EOF is still echoed once. -/
theorem line_echo_uppercase (L : List Nat) (hnl : 10 ∉ L)
    (hlen : L.length < BUFSZ) :
    lineEcho (L ++ [10]) = L.map upperByte ++ [10]
    ∧ (L ≠ [] → lineEcho L = L.map upperByte) := by
  constructor
  · have h := lineEchoAux_line L [] [] hnl (by simpa using hlen)
    simpa [lineEcho, lineEchoAux] using h
  · intro hne
    have h := lineEchoAux_partial L [] hnl (by simpa using hlen)
    simp only [List.nil_append] at h
    rw [lineEcho, h]
    simp [hne]

theorem line_echo_uppercase_witness :
    lineEcho ([104, 105] ++ [10]) = [104, 105].map upperByte ++ [10]
    ∧ lineEcho [104, 105] = [104, 105].map upperByte :=
  ⟨(line_echo_uppercase [104, 105] (by decide) (by decide)).1,
   (line_echo_uppercase [104, 105] (by decide) (by decide)).2 (by decide)⟩

/-- C8: every blocking operation embedded from the two programs — the
server's recv loop, all three write-all flush loops, the server's accept
loop, the client's select wait, the client's socket recv and the client's
stdin read — treats an interrupted-system-call failure (EINTR) as a silent
retry: the state (output, logs, termination) is unchanged except for the
count of the re-issued call, and the loop continues. -/
theorem eintr_transparent :
    (∀ evs : List SrvEv, srvLoop (.rEintr :: evs) = srvLoop evs)
    ∧ (∀ (chunk : List Nat) (rs : List SendRes),
        sendAll chunk (.sEintr :: rs) = sendAll chunk rs)
    ∧ (∀ evs : List AccEv, accLoop (.accEintr :: evs) = accLoop evs)
    ∧ (∀ s : ClSt, clientStep s .selEintr = s)
    ∧ (∀ (s : ClSt) (loc : Option LocRes),
        s.done = false → s.stuck = false →
        clientStep s (.iter (some .rEintr) loc)
          = { s with remoteReads := s.remoteReads + 1 })
    ∧ (∀ s : ClSt, s.done = false → s.stuck = false → s.stdinOpen = true →
        clientStep s (.iter none (some .lEintr))
          = { s with localReads := s.localReads + 1 }) := by
  refine ⟨srvLoop_eintr, sendAll_eintr, accLoop_eintr, ?_, ?_, ?_⟩
  · intro s
    simp [clientStep]
  · intro s loc hd hs
    cases loc with
    | none => simp [clientStep, hd, hs, remotePart]
    | some l => simp [clientStep, hd, hs, remotePart]
  · intro s hd hs ho
    simp [clientStep, hd, hs, ho, localPart]

theorem eintr_transparent_witness :
    clientStep initClSt (.iter (some .rEintr) none)
      = { initClSt with remoteReads := initClSt.remoteReads + 1 }
    ∧ clientStep initClSt (.iter none (some .lEintr))
      = { initClSt with localReads := initClSt.localReads + 1 } :=
  ⟨eintr_transparent.2.2.2.2.1 initClSt none rfl rfl,
   eintr_transparent.2.2.2.2.2 initClSt rfl rfl rfl⟩

/-- C9 counterexample: on the write-error termination path the session
logs the connect notice and `perror("send")` but exits via `pthread_exit`
before the disconnect notice — refuting "writes a disconnect notice on
every path by which the session terminates, including termination caused
by a write error". -/
theorem send_error_no_disconnect_cex :
    (srvSession [.data [104] [.sErr]]).fin = .sendErr
    ∧ SLog.lDisconnect ∉ (srvSession [.data [104] [.sErr]]).log
    ∧ SLog.lConnect ∈ (srvSession [.data [104] [.sErr]]).log := by
  decide

/-- C9 (amended): every accepted connection gets a connect notice on
stderr, and a disconnect notice is written exactly on the termination
paths reached through the read side (orderly peer EOF and read error);
the write-error path terminates the session without a disconnect notice
(only the send error itself is logged). -/
theorem server_log_notices (evs : List SrvEv) :
    ((srvSession evs).log.head? = some .lConnect)
    ∧ (SLog.lDisconnect ∈ (srvSession evs).log ↔
        (srvSession evs).fin = .peerEof ∨ (srvSession evs).fin = .recvErr) := by
  constructor
  · rfl
  · simpa [srvSession] using srvLoop_disconnect evs

/-- C10: the client exits with status 1 if invoked with a wrong number of
arguments or if the connect fails; and on every run where the connection
succeeded and the event loop terminated — whether by remote close or by an
unretryable I/O error — it closes the connection and exits with status 0. -/
theorem client_exit_codes (argc : Nat) (cok : Bool) (evs : List ClEvent) :
    (argc ≠ 3 → clientExit (clientMain argc cok evs) = some 1)
    ∧ (argc = 3 → cok = false → clientExit (clientMain argc cok evs) = some 1)
    ∧ (argc = 3 → cok = true → (clientRun initClSt evs).done = true →
        clientExit (clientMain argc cok evs) = some 0
        ∧ clientFdClosed (clientMain argc cok evs) = true) := by
  refine ⟨?_, ?_, ?_⟩
  · intro h
    simp [clientMain, clientExit, h]
  · intro h1 h2
    simp [clientMain, clientExit, h1, h2]
  · intro h1 h2 h3
    simp [clientMain, clientExit, clientFdClosed, h1, h2, h3]

theorem client_exit_codes_witness :
    clientExit (clientMain 2 true []) = some 1
    ∧ clientExit (clientMain 3 false []) = some 1
    ∧ (clientExit (clientMain 3 true [ClEvent.selErr]) = some 0
       ∧ clientFdClosed (clientMain 3 true [ClEvent.selErr]) = true) :=
  ⟨(client_exit_codes 2 true []).1 (by decide),
   (client_exit_codes 3 false []).2.1 rfl rfl,
   (client_exit_codes 3 true [ClEvent.selErr]).2.2 rfl rfl (by decide)⟩
